import Mathlib

/-!
Verification of the acquisition core of the `epstractor` repository
(`src/download.py`) against its natural-language specification.

The Python code is shallowly embedded: the filesystem is a finite map from
paths (component lists) to file contents abstracted as (size, md5); the Drive
service is a function from folder ids to child listings; the concurrent
orchestrator `_download_gdrive_folder` is modelled as a pure fold over the
walker's enumeration emitting an event trace (scheduling, manifest persistence,
future draining).  Every definition is translated from the source file
`src/download.py`; line references are given in the doc comments.
-/

namespace Epstractor

/-- A filesystem path, as its list of components.  `download.py` builds all
destination paths as `target_root / name₁ / ... / nameₖ`. -/
abbrev FsPath := List String

/-- Abstracted content of a local file: its byte size and the MD5 hexdigest of
its bytes.  `_calculate_md5` (download.py:808-814) streams the whole file, so
the digest is a pure function of the content; we carry it directly. -/
structure LocalFile where
  size : Nat
  md5 : String
deriving Repr, DecidableEq

/-- The local filesystem as observed by `download.py`:
`path.exists()` is `(fs p).isSome`, `path.stat().st_size` is `(fs p).size`. -/
abbrev FS := FsPath → Option LocalFile

/-- Point update of the filesystem (a write, rename target, or unlink). -/
def updateFS (fs : FS) (p : FsPath) (v : Option LocalFile) : FS :=
  fun q => if q = p then v else fs q

/-- `Downloader._verify_local_file` (download.py:790-806).

```python
if not path.exists(): return False
if expected_size is not None and path.stat().st_size != expected_size:
    return False
if self.verify_downloads and expected_md5:
    return self._calculate_md5(path) == expected_md5
return True
```

Note `expected_md5` is tested for Python truthiness, so `None` and the empty
string both bypass the MD5 comparison. -/
def verify_local_file (verify_downloads : Bool) (fs : FS) (path : FsPath)
    (expected_size : Option Nat) (expected_md5 : Option String) : Bool :=
  match fs path with
  | none => false
  | some file =>
    match expected_size with
    | some s =>
      if file.size ≠ s then false
      else
        match expected_md5 with
        | some m => if verify_downloads && (m ≠ "") then file.md5 == m else true
        | none => true
    | none =>
      match expected_md5 with
      | some m => if verify_downloads && (m ≠ "") then file.md5 == m else true
      | none => true

/-! ## The Drive walker (`_walk_folder`, download.py:629-688) -/

/-- Metadata dictionary built by `_walk_folder` for a yielded file
(download.py:675-683). -/
structure FileMeta where
  id : String
  name : String
  mimeType : Option String
  md5Checksum : Option String
  size : Option Nat
deriving Repr, DecidableEq

/-- A child item as returned by the Drive `files().list` API, together with
its `trashed` flag (the listing query filters on it). -/
structure DriveChild where
  id : String
  name : String
  mimeType : Option String
  md5Checksum : Option String
  size : Option Nat
  trashed : Bool
deriving Repr, DecidableEq

/-- The remote Drive service: every folder id is mapped to the full list of
its children, in the server's return order. -/
abbrev DriveServer := String → List DriveChild

/-- The Drive folder mime type (download.py:671, 674). -/
def folderMime : String := "application/vnd.google-apps.folder"

/-- The listing query `'{folder_id}' in parents and trashed = false`
(download.py:648): the children of the folder that are not trashed. -/
def queryChildren (drive : DriveServer) (folderId : String) : List DriveChild :=
  (drive folderId).filter (fun c => !c.trashed)

/-- Structural helper for `chunkPages`: peel pages of `n` elements while the
counter lasts (the counter is seeded with the list length, which always
suffices for `n ≥ 1`); the final clause dumps any remainder whole so that the
pages always concatenate back to the input. -/
def chunkAux {α : Type} (n : Nat) : Nat → List α → List (List α)
  | _, [] => []
  | 0, x :: xs => [x :: xs]
  | Nat.succ fuel, x :: xs =>
    (x :: xs).take n :: chunkAux n fuel ((x :: xs).drop n)

/-- Chunk a list into pages of at most `n` elements (`n = 0` degenerates to a
single page); models the server-side pagination that `_walk_folder` consumes
via `nextPageToken` (download.py:647-662, 686-688). -/
def chunkPages {α : Type} (n : Nat) (l : List α) : List (List α) :=
  match n with
  | 0 => if l.isEmpty then [] else [l]
  | Nat.succ m => chunkAux (m + 1) l.length l

/-- `name = file_item.get("name") or file_item["id"]` (download.py:669):
an absent/empty display name falls back to the Drive id. -/
def childName (c : DriveChild) : String :=
  if c.name = "" then c.id else c.name

/-- The metadata dictionary yielded for a non-folder child
(download.py:675-683). -/
def metaOf (c : DriveChild) : FileMeta :=
  { id := c.id, name := childName c, mimeType := c.mimeType,
    md5Checksum := c.md5Checksum, size := c.size }

/-- Per-child action of the walker loop body (download.py:667-684): a folder
child is pushed onto the stack when `recursive` (and otherwise ignored); a
non-folder child is yielded with destination `current_local / name`. -/
def childStep (recursive : Bool) (curLocal : FsPath) (c : DriveChild) :
    Option (String × FsPath) × Option (FileMeta × FsPath) :=
  if c.mimeType = some folderMime then
    if recursive then (some (c.id, curLocal ++ [childName c]), none)
    else (none, none)
  else (none, some (metaOf c, curLocal ++ [childName c]))

/-- Process the children of one page in order, threading the explicit stack
(pushes go on top, i.e. to the end of the Python list) and collecting the
yields in order (download.py:667-684). -/
def processChildren (recursive : Bool) (curLocal : FsPath) :
    List DriveChild → List (String × FsPath) →
    List (String × FsPath) × List (FileMeta × FsPath)
  | [], stack => (stack, [])
  | c :: cs, stack =>
    let step := childStep recursive curLocal c
    let rest := processChildren recursive curLocal cs (step.fst.toList ++ stack)
    (rest.fst, step.snd.toList ++ rest.snd)

/-- Process the successive pages of one folder (the inner `while True` /
`nextPageToken` loop, download.py:647-688). -/
def processPages (recursive : Bool) (curLocal : FsPath) :
    List (List DriveChild) → List (String × FsPath) →
    List (String × FsPath) × List (FileMeta × FsPath)
  | [], stack => (stack, [])
  | page :: rest, stack =>
    let r1 := processChildren recursive curLocal page stack
    let r2 := processPages recursive curLocal rest r1.fst
    (r2.fst, r1.snd ++ r2.snd)

/-- The outer stack loop of `_walk_folder` (download.py:641-688).  `fuel`
bounds the number of frames popped; `none` models a walk that does not
terminate within the bound (the real API walk is finite). -/
def walkFolderAux (drive : DriveServer) (pageSize : Nat) (recursive : Bool) :
    Nat → List (String × FsPath) → Option (List (FileMeta × FsPath))
  | _, [] => some []
  | 0, _ :: _ => none
  | Nat.succ fuel, (fid, curLocal) :: stack =>
    let pages := chunkPages pageSize (queryChildren drive fid)
    let r := processPages recursive curLocal pages stack
    (walkFolderAux drive pageSize recursive fuel r.fst).map (fun rest => r.snd ++ rest)

/-- `_walk_folder(drive_service, folder_id, local_root, recursive)`:
the stack is seeded with `[(folder_id, local_root)]` (download.py:641). -/
def walkFolder (drive : DriveServer) (pageSize : Nat) (recursive : Bool)
    (fuel : Nat) (folderId : String) (localRoot : FsPath) :
    Option (List (FileMeta × FsPath)) :=
  walkFolderAux drive pageSize recursive fuel [(folderId, localRoot)]

/-! ## The orchestrator (`_download_gdrive_folder`, download.py:423-627, and
`download_all`, download.py:297-318)

The progress-bar branch (download.py:470-561) and the plain branch
(download.py:562-627) run the identical manifest/dedupe/skip/schedule logic;
the model below embeds that shared logic once.  Listing runs on a single
producer thread, so the per-entry processing is a pure fold over the walker's
enumeration; downloads executed by the worker pool are recorded as events
(`scheduled` when submitted, `drain` when the orchestrator waits on the
future).  The filesystem parameter is the state observed by the producer's
`dest_path.exists()` / verification checks. -/

/-- A manifest entry (download.py:495-502 and 565-572). -/
structure ManifestEntry where
  id : String
  path : String
  md5 : Option String
  size : Option Nat
deriving Repr, DecidableEq

/-- The arguments `submit_download` passes to `_download_gdrive_file`
(download.py:451-462). -/
structure ScheduledDownload where
  fileId : String
  name : String
  dest : FsPath
  md5 : Option String
  size : Option Nat
deriving Repr, DecidableEq

/-- The orchestrator flags (`Downloader.__init__`, download.py:96-98, 129-131)
and the `overwrite` argument of `download_all`. -/
structure OrchCfg where
  manifest_only : Bool
  verify_only : Bool
  verify_downloads : Bool
  overwrite : Bool
deriving Repr, DecidableEq

/-- The producer-side mutable state of `_download_gdrive_folder`
(download.py:439-445): manifest list, futures list, dedupe dict, duplicate
counter and conflict dict.  Python dicts are insertion-ordered association
lists; sets are lists without duplicates (only membership is consumed). -/
structure FolderState where
  manifest : List ManifestEntry
  futures : List ScheduledDownload
  seen_md5_by_path : List (String × List String)
  skipped_duplicate_count : Nat
  conflict_md5s_by_path : List (String × List String)
deriving Repr, DecidableEq

/-- The state at the start of a folder run (download.py:439-445). -/
def initFolderState : FolderState :=
  { manifest := [], futures := [], seen_md5_by_path := [],
    skipped_duplicate_count := 0, conflict_md5s_by_path := [] }

/-- `dict.get(key)` on an insertion-ordered association list. -/
def lookupSeen : List (String × List String) → String → Option (List String)
  | [], _ => none
  | kv :: rest, k => if kv.fst = k then some kv.snd else lookupSeen rest k

/-- `dict[key] = value` on an insertion-ordered association list: replace in
place if present, else append. -/
def setSeen : List (String × List String) → String → List String →
    List (String × List String)
  | [], k, v => [(k, v)]
  | kv :: rest, k, v =>
    if kv.fst = k then (k, v) :: rest else kv :: setSeen rest k v

/-- `str(dest_path.relative_to(target_root))` (download.py:498, 511): the
destination is always `target_root ++ suffix`, and the relative path is
rendered with POSIX slashes. -/
def relPathStr (target_root dest : FsPath) : String :=
  String.intercalate "/" (dest.drop target_root.length)

/-- The manifest entry appended for every yielded `(file_meta, dest_path)`
(download.py:565-572). -/
def mkManifestEntry (target_root : FsPath) (meta : FileMeta) (dest : FsPath) :
    ManifestEntry :=
  { id := meta.id, path := relPathStr target_root dest,
    md5 := meta.md5Checksum, size := meta.size }

/-- `file_meta.get("name") or file_meta.get("title") or file_meta["id"]`
(download.py:456); the walker's metadata never carries a "title" key. -/
def submitName (meta : FileMeta) : String :=
  if meta.name = "" then meta.id else meta.name

/-- The download submitted by `submit_download` (download.py:451-462). -/
def mkDownload (meta : FileMeta) (dest : FsPath) : ScheduledDownload :=
  { fileId := meta.id, name := submitName meta, dest := dest,
    md5 := meta.md5Checksum, size := meta.size }

/-- The on-the-fly dedupe/conflict step (download.py:581-592).  Returns the
updated state and `true` when processing falls through to the scheduling
decision, `false` when the entry is skipped as an identical path+md5
duplicate.  A `None` or empty `md5Checksum` is falsy in
`if expected_md5:` and bypasses dedupe entirely. -/
def dedupeStep (st : FolderState) (relP : String) (md5 : Option String) :
    FolderState × Bool :=
  match md5 with
  | none => (st, true)
  | some m =>
    if m = "" then (st, true)
    else
      match lookupSeen st.seen_md5_by_path relP with
      | none =>
        ({ st with seen_md5_by_path := setSeen st.seen_md5_by_path relP [m] },
         true)
      | some existing =>
        if m ∈ existing then
          ({ st with skipped_duplicate_count := st.skipped_duplicate_count + 1 },
           false)
        else
          ({ st with
              seen_md5_by_path := setSeen st.seen_md5_by_path relP (existing ++ [m]),
              conflict_md5s_by_path :=
                setSeen st.conflict_md5s_by_path relP (existing ++ [m]) },
           true)

/-- The existing-destination skip decision (download.py:593-599):

```python
if dest_path.exists() and not overwrite:
    if self.verify_downloads and self._verify_local_file(...): continue
    elif not self.verify_downloads: continue
```
-/
def localSkip (cfg : OrchCfg) (fs : FS) (dest : FsPath)
    (esize : Option Nat) (emd5 : Option String) : Bool :=
  (fs dest).isSome && !cfg.overwrite &&
    (cfg.verify_downloads &&
        verify_local_file cfg.verify_downloads fs dest esize emd5
      || !cfg.verify_downloads)

/-- Events of one folder run, in program order. -/
inductive FolderEvent where
  | scheduled (d : ScheduledDownload)
  | persistManifest (entries : List ManifestEntry)
  | verifyAgainstManifest (entries : List ManifestEntry)
  | drain (d : ScheduledDownload)
deriving Repr, DecidableEq

/-- Processing of one yielded `(file_meta, dest_path)` by the listing loop
(download.py:564-600): append the manifest entry unconditionally; stop there
in manifest-only / verify-only modes; otherwise dedupe, then apply the
existing-destination skip, otherwise submit the download. -/
def processEntry (cfg : OrchCfg) (fs : FS) (root : FsPath)
    (st : FolderState) (e : FileMeta × FsPath) : FolderState × List FolderEvent :=
  let meta := e.fst
  let dest := e.snd
  let st1 : FolderState :=
    { st with manifest := st.manifest ++ [mkManifestEntry root meta dest] }
  if cfg.manifest_only || cfg.verify_only then (st1, [])
  else
    let dd := dedupeStep st1 (relPathStr root dest) meta.md5Checksum
    if dd.snd then
      if localSkip cfg fs dest meta.size meta.md5Checksum then (dd.fst, [])
      else
        ({ dd.fst with futures := dd.fst.futures ++ [mkDownload meta dest] },
         [FolderEvent.scheduled (mkDownload meta dest)])
    else (dd.fst, [])

/-- The listing loop folded over the whole enumeration (download.py:564-600),
from an arbitrary starting state. -/
def processEntriesFrom (cfg : OrchCfg) (fs : FS) (root : FsPath)
    (st : FolderState) : List (FileMeta × FsPath) → FolderState × List FolderEvent
  | [] => (st, [])
  | e :: rest =>
    let r1 := processEntry cfg fs root st e
    let r2 := processEntriesFrom cfg fs root r1.fst rest
    (r2.fst, r1.snd ++ r2.snd)

/-- One `_download_gdrive_folder` run over a completed enumeration
(download.py:562-627): process every yielded entry, then call
`_write_manifest` (which writes only a non-empty manifest,
download.py:752-753), then return early in manifest-only mode, run the
manifest verification and return early in verify-only mode, and otherwise
drain the outstanding futures in submission order. -/
def runFolderEvents (cfg : OrchCfg) (fs : FS) (root : FsPath)
    (entries : List (FileMeta × FsPath)) : List FolderEvent :=
  let r := processEntriesFrom cfg fs root initFolderState entries
  let persistEvs :=
    if r.fst.manifest.isEmpty then []
    else [FolderEvent.persistManifest r.fst.manifest]
  if cfg.manifest_only then r.snd ++ persistEvs
  else if cfg.verify_only then
    r.snd ++ persistEvs ++ [FolderEvent.verifyAgainstManifest r.fst.manifest]
  else r.snd ++ persistEvs ++ r.fst.futures.map FolderEvent.drain

/-- A config item (`DownloadItem`, download.py:51-59). -/
structure DownloadItem where
  kind : String
  url : Option String := none
  filename : Option String := none
  folder_id : Option String := none
  recursive : Bool := false
deriving Repr, DecidableEq

/-- The Drive-folder partition of the config items (download.py:310-312). -/
def gdriveItems (items : List DownloadItem) : List DownloadItem :=
  items.filter (fun it => it.kind == "gdrive_folder")

/-- The enumeration of one `gdrive_folder` item: `_download_gdrive_folder`
raises when `folder_id` is missing (download.py:427-428) and otherwise walks
the folder from `target_root` (download.py:466-468). -/
def walkGdriveItem (drive : DriveServer) (fuel pageSize : Nat) (root : FsPath)
    (it : DownloadItem) : Option (List (FileMeta × FsPath)) :=
  match it.folder_id with
  | none => none
  | some fid => walkFolder drive pageSize it.recursive fuel fid root

/-- One `_download_gdrive_folder` call for one item.  The Python code
interleaves listing with processing; since processing is a pure fold over the
yields, walking first and folding after produces the same state and events. -/
def runGdriveItem (cfg : OrchCfg) (fs : FS) (drive : DriveServer)
    (fuel pageSize : Nat) (root : FsPath) (it : DownloadItem) :
    Option (List FolderEvent) :=
  (walkGdriveItem drive fuel pageSize root it).map (runFolderEvents cfg fs root)

/-- The sequential `for item in gdrive_items` loop of `download_all`
(download.py:317-318): items are processed in order, events concatenate, and
a raised error anywhere aborts the run (`none`). -/
def runGdriveItems (cfg : OrchCfg) (fs : FS) (drive : DriveServer)
    (fuel pageSize : Nat) (root : FsPath) :
    List DownloadItem → Option (List FolderEvent)
  | [] => some []
  | it :: rest =>
    match runGdriveItem cfg fs drive fuel pageSize root it with
    | none => none
    | some evs =>
      match runGdriveItems cfg fs drive fuel pageSize root rest with
      | none => none
      | some evs2 => some (evs ++ evs2)

/-- `download_all` (download.py:297-318): resolve
`target_root = output_dir / subdir`, partition the items, and run
`_download_gdrive_folder` for each Drive item in order.  HTTP items
(download.py:309, 314-315) never touch the manifest and contribute no events
here.  `none` models a run aborted by a raised error. -/
def download_all_events (cfg : OrchCfg) (fs : FS) (drive : DriveServer)
    (fuel pageSize : Nat) (output_dir : FsPath) (subdir : String)
    (items : List DownloadItem) : Option (List FolderEvent) :=
  runGdriveItems cfg fs drive fuel pageSize (output_dir ++ [subdir])
    (gdriveItems items)

/-- The per-item enumerations of a list of Drive items (`none` when any walk
fails to complete). -/
def walksOf (drive : DriveServer) (fuel pageSize : Nat) (root : FsPath) :
    List DownloadItem → Option (List (List (FileMeta × FsPath)))
  | [] => some []
  | it :: rest =>
    match walkGdriveItem drive fuel pageSize root it with
    | none => none
    | some en =>
      match walksOf drive fuel pageSize root rest with
      | none => none
      | some ens => some (en :: ens)

/-- The content of `target_root / ".manifest.json"` after a sequence of
events: each `persistManifest` overwrites the file; `none` when no write ever
happened. -/
def finalManifestFile : List FolderEvent → Option (List ManifestEntry)
  | [] => none
  | ev :: rest =>
    match finalManifestFile rest with
    | some m => some m
    | none =>
      match ev with
      | FolderEvent.persistManifest m => some m
      | _ => none

/-- Whether an event is a download submission. -/
def isScheduledEvent : FolderEvent → Bool
  | FolderEvent.scheduled _ => true
  | _ => false

/-- Whether an event is a manifest write. -/
def isPersistEvent : FolderEvent → Bool
  | FolderEvent.persistManifest _ => true
  | _ => false

/-- Number of manifest writes in an event trace. -/
def countPersist (evs : List FolderEvent) : Nat :=
  (evs.filter isPersistEvent).length

/-- Number of scheduled downloads whose destination has relative path `p` and
whose expected md5 is `some m`. -/
def countPM (root : FsPath) (futures : List ScheduledDownload) (p m : String) : Nat :=
  (futures.filter
    (fun d => (relPathStr root d.dest == p) && (d.md5 == some m))).length

/-- Membership of md5 `m` in the dedupe set recorded for path `p`. -/
def seenIn (s : List (String × List String)) (p m : String) : Prop :=
  ∃ l, lookupSeen s p = some l ∧ m ∈ l

/-- Whether an entry with the given relative path and md5 is an identical
path+md5 duplicate of an earlier one, i.e. whether the dedupe check
(download.py:581-589) skips it.  Reads only the dedupe dict. -/
def isDuplicateEntry (st : FolderState) (relP : String)
    (md5 : Option String) : Bool :=
  match md5 with
  | none => false
  | some m =>
    if m = "" then false
    else
      match lookupSeen st.seen_md5_by_path relP with
      | none => false
      | some existing => if m ∈ existing then true else false

/-- The dedupe invariant maintained by the listing loop: per (path, md5) with
a non-empty md5, at most one download is ever scheduled, and a scheduled one
is recorded in the dedupe dict. -/
def dedupInv (root : FsPath) (st : FolderState) : Prop :=
  ∀ p m, m ≠ "" →
    countPM root st.futures p m ≤ 1 ∧
    (1 ≤ countPM root st.futures p m → seenIn st.seen_md5_by_path p m)

/-! ## The Drive fetcher (`_download_gdrive_file`, download.py:690-747) -/

/-- Outcome of the chunked media download loop (download.py:710-729): either
the full content lands in the temp file, or an exception interrupts the loop
leaving some partly-written content there. -/
inductive DownloadOutcome where
  | success (content : LocalFile)
  | failure (interruptedContent : LocalFile)
deriving Repr, DecidableEq

/-- `dest_path.with_suffix(dest_path.suffix + f".part.{file_id}")`
(download.py:702): the final component gains the suffix `.part.<drive id>`. -/
def tmpPath (dest : FsPath) (fileId : String) : FsPath :=
  dest.dropLast ++ [(dest.getLast?.getD "") ++ ".part." ++ fileId]

/-- The filesystem after writing `content` to the temp file and executing
`tmp_path.replace(dest_path)` (download.py:710, 731). -/
def afterReplace (fs : FS) (tmp dest : FsPath) (content : LocalFile) : FS :=
  updateFS (updateFS (updateFS fs tmp (some content)) tmp none) dest (some content)

/-- `_download_gdrive_file` (download.py:690-747) over the abstract
filesystem.  Returns the filesystem after the call and `true` when the call
returns normally (`false` when it re-raises).  On an exception during the
download loop, the handler (download.py:741-747) unlinks the temp file and
the destination when they exist and re-raises; after a successful replace, a
verification failure raises `RuntimeError` and reaches the same handler. -/
def download_gdrive_file (verify_downloads : Bool) (fs : FS) (fileId : String)
    (dest : FsPath) (expected_md5 : Option String) (expected_size : Option Nat)
    (outcome : DownloadOutcome) : FS × Bool :=
  let tmp := tmpPath dest fileId
  match outcome with
  | DownloadOutcome.failure interruptedContent =>
    let fs1 := updateFS fs tmp (some interruptedContent)
    let fs2 := if (fs1 tmp).isSome then updateFS fs1 tmp none else fs1
    let fs3 := if (fs2 dest).isSome then updateFS fs2 dest none else fs2
    (fs3, false)
  | DownloadOutcome.success content =>
    let fs2 := afterReplace fs tmp dest content
    if verify_downloads &&
        !(verify_local_file verify_downloads fs2 dest expected_size expected_md5) then
      let fs3 := if (fs2 tmp).isSome then updateFS fs2 tmp none else fs2
      let fs4 := if (fs3 dest).isSome then updateFS fs3 dest none else fs3
      (fs4, false)
    else (fs2, true)

/-! ## The manifest writer (`_write_manifest`, download.py:749-762) -/

/-- Whether the `manifest_path.write_text(...)` call succeeds or raises. -/
inductive WriteOutcome where
  | ok
  | ioError
deriving Repr, DecidableEq

/-- Result of a `_write_manifest` call: the content written to
`.manifest.json` (if any) and whether the method returned normally. -/
structure WriteResult where
  fileWritten : Option (List ManifestEntry)
  returnedNormally : Bool
deriving Repr, DecidableEq

/-- `_write_manifest` (download.py:749-762): an empty manifest returns without
writing; otherwise the write is attempted and any exception is caught and
logged as a warning. -/
def write_manifest (manifest : List ManifestEntry) (w : WriteOutcome) :
    WriteResult :=
  if manifest.isEmpty then { fileWritten := none, returnedNormally := true }
  else
    match w with
    | WriteOutcome.ok => { fileWritten := some manifest, returnedNormally := true }
    | WriteOutcome.ioError => { fileWritten := none, returnedNormally := true }

/-! ## HTTP filename derivation (`_load_config`, download.py:146-213, and
`_download_http_file`, download.py:375-391) -/

/-- A raw YAML item mapping, with the keys `_load_config` reads. -/
structure RawItem where
  kind : String
  url : Option String := none
  filename : Option String := none
  folder_id : Option String := none
  recursive : Bool := false
deriving Repr, DecidableEq

/-- Per-item validation in `_load_config` (download.py:176-205): an
`http_file` item requires a truthy `url` (the filename is passed through
unvalidated); a `gdrive_folder` item requires a truthy `folder_id`; other
kinds fail. -/
def parseItem (it : RawItem) : Except String DownloadItem :=
  if it.kind = "http_file" then
    match it.url with
    | none => Except.error "http_file item missing required url"
    | some u =>
      if u = "" then Except.error "http_file item missing required url"
      else Except.ok { kind := "http_file", url := some u, filename := it.filename }
  else if it.kind = "gdrive_folder" then
    match it.folder_id with
    | none => Except.error "gdrive_folder item missing folder_id"
    | some fid =>
      if fid = "" then Except.error "gdrive_folder item missing folder_id"
      else Except.ok { kind := "gdrive_folder", folder_id := some fid,
                       recursive := it.recursive }
  else Except.error ("Unknown item kind: " ++ it.kind)

/-- Value of one hex digit, as used by percent-decoding. -/
def hexDigit (c : Char) : Option Nat :=
  if '0' ≤ c ∧ c ≤ '9' then some (c.toNat - '0'.toNat)
  else if 'a' ≤ c ∧ c ≤ 'f' then some (c.toNat - 'a'.toNat + 10)
  else if 'A' ≤ c ∧ c ≤ 'F' then some (c.toNat - 'A'.toNat + 10)
  else none

/-- Percent-decoding on the character list (ASCII fragment of
`urllib.parse.unquote`; invalid escapes are left untouched, as in Python). -/
def unquoteChars : List Char → List Char
  | [] => []
  | '%' :: a :: b :: rest =>
    match hexDigit a, hexDigit b with
    | some hi, some lo => Char.ofNat (16 * hi + lo) :: unquoteChars rest
    | _, _ => '%' :: unquoteChars (a :: b :: rest)
  | c :: rest => c :: unquoteChars rest

/-- `urllib.parse.unquote` (download.py:387). -/
def unquote (s : String) : String :=
  String.mk (unquoteChars s.data)

/-- Cut a character list at the first occurrence of `sep` (dropping the rest). -/
def takeBeforeChar (sep : Char) : List Char → List Char
  | [] => []
  | c :: rest => if c = sep then [] else c :: takeBeforeChar sep rest

/-- The suffix after the first `://` marker, when one occurs. -/
def afterSchemeMarker : List Char → Option (List Char)
  | ':' :: '/' :: '/' :: rest => some rest
  | _ :: rest => afterSchemeMarker rest
  | [] => none

/-- Keep the characters from the first slash on (dropping the authority). -/
def fromFirstSlash : List Char → List Char
  | [] => []
  | c :: rest => if c = '/' then c :: rest else fromFirstSlash rest

/-- The `path` component of `urllib.parse.urlparse` (download.py:386) for the
URLs the downloader handles: fragment and query are cut off; with a
`scheme://authority` part the path starts at the first slash after the
authority; without one the whole string is the path. -/
def urlPath (url : String) : String :=
  let cs := takeBeforeChar '?' (takeBeforeChar '#' url.data)
  match afterSchemeMarker cs with
  | none => String.mk cs
  | some afterScheme => String.mk (fromFirstSlash afterScheme)

/-- Split a character list on slashes. -/
def segmentsOnSlash : List Char → List (List Char)
  | [] => [[]]
  | c :: rest =>
    match segmentsOnSlash rest with
    | [] => [[]]
    | g :: gs => if c = '/' then [] :: g :: gs else (c :: g) :: gs

/-- `Path(s).name` (download.py:387): the last non-empty slash-separated
segment (empty when there is none). -/
def pathName (s : String) : String :=
  match ((segmentsOnSlash s.data).filter (fun seg => seg ≠ [])).getLast? with
  | some n => String.mk n
  | none => ""

/-- The filename-derivation fallback of `_download_http_file`
(download.py:386-389): the last path segment of the URL after
percent-decoding; an empty result raises `ValueError`. -/
def inferName (u : String) : Except String String :=
  let name := pathName (unquote (urlPath u))
  if name = "" then Except.error ("Cannot infer filename from URL: " ++ u)
  else Except.ok name

/-- The filename decision of `_download_http_file` (download.py:379-389):
a missing url raises; a truthy configured `filename` wins; otherwise the name
is inferred from the URL at download time. -/
def httpFilename (item : DownloadItem) : Except String String :=
  match item.url with
  | none => Except.error "http_file item missing url"
  | some u =>
    if u = "" then Except.error "http_file item missing url"
    else
      match item.filename with
      | some f => if f = "" then inferName u else Except.ok f
      | none => inferName u

/-- Decidable equality for the `Except` results used above. -/
instance : DecidableEq (Except String String) := fun a b =>
  match a, b with
  | Except.ok x, Except.ok y =>
    if h : x = y then isTrue (by rw [h])
    else isFalse (by intro hc; cases hc; exact h rfl)
  | Except.error x, Except.error y =>
    if h : x = y then isTrue (by rw [h])
    else isFalse (by intro hc; cases hc; exact h rfl)
  | Except.ok _, Except.error _ => isFalse (by intro hc; cases hc)
  | Except.error _, Except.ok _ => isFalse (by intro hc; cases hc)

/-- Decidable equality for `parseItem` results. -/
instance : DecidableEq (Except String DownloadItem) := fun a b =>
  match a, b with
  | Except.ok x, Except.ok y =>
    if h : x = y then isTrue (by rw [h])
    else isFalse (by intro hc; cases hc; exact h rfl)
  | Except.error x, Except.error y =>
    if h : x = y then isTrue (by rw [h])
    else isFalse (by intro hc; cases hc; exact h rfl)
  | Except.ok _, Except.error _ => isFalse (by intro hc; cases hc)
  | Except.error _, Except.ok _ => isFalse (by intro hc; cases hc)

/-- Statement-side helper for the per-item manifest behaviour: the manifest
of the last item with a non-empty enumeration (later items win). -/
def lastNonEmptyManifest (root : FsPath) :
    List (List (FileMeta × FsPath)) → Option (List ManifestEntry)
  | [] => none
  | en :: ens =>
    match lastNonEmptyManifest root ens with
    | some m => some m
    | none =>
      if en.isEmpty then none
      else some (en.map (fun e => mkManifestEntry root e.fst e.snd))

/-! ## Theorems -/

/-- C4: the verifier accepts/rejects exactly as specified: false when the path
does not exist; false on a size mismatch; when verification is enabled and a
(non-empty) md5 expectation is given, the result is the md5 comparison; in the
remaining cases, true — in particular a file with no expectations is accepted
whenever it exists. -/
theorem C4_verifier_cases :
    ∀ (vd : Bool) (fs : FS) (p : FsPath)
      (esize : Option Nat) (emd5 : Option String),
    (fs p = none → verify_local_file vd fs p esize emd5 = false)
    ∧ (∀ f s, fs p = some f → esize = some s → f.size ≠ s →
        verify_local_file vd fs p esize emd5 = false)
    ∧ (∀ f m, fs p = some f → (∀ s, esize = some s → f.size = s) →
        vd = true → emd5 = some m → m ≠ "" →
        verify_local_file vd fs p esize emd5 = (f.md5 == m))
    ∧ (∀ f, fs p = some f → (∀ s, esize = some s → f.size = s) →
        (vd = false ∨ emd5 = none ∨ emd5 = some "") →
        verify_local_file vd fs p esize emd5 = true)
    ∧ (∀ f, fs p = some f → esize = none → emd5 = none →
        verify_local_file vd fs p esize emd5 = true) := by
  intro vd fs p esize emd5
  refine ⟨?_, ?_, ?_, ?_, ?_⟩
  · intro h
    simp [verify_local_file, h]
  · intro f s hf hs hne
    subst hs
    simp [verify_local_file, hf, hne]
  · intro f m hf hsize hvd hm hne
    subst hvd; subst hm
    cases esize with
    | none => simp [verify_local_file, hf, hne]
    | some s =>
      have : f.size = s := hsize s rfl
      simp [verify_local_file, hf, this, hne]
  · intro f hf hsize hcase
    cases esize with
    | none =>
      rcases hcase with hvd | hnone | hempty
      · subst hvd
        cases emd5 <;> simp [verify_local_file, hf]
      · subst hnone; simp [verify_local_file, hf]
      · subst hempty; simp [verify_local_file, hf]
    | some s =>
      have hs : f.size = s := hsize s rfl
      rcases hcase with hvd | hnone | hempty
      · subst hvd
        cases emd5 <;> simp [verify_local_file, hf, hs]
      · subst hnone; simp [verify_local_file, hf, hs]
      · subst hempty; simp [verify_local_file, hf, hs]
  · intro f hf hs hm
    subst hs; subst hm
    simp [verify_local_file, hf]

/-- Witness for `C4_verifier_cases` at a concrete filesystem: a file of size 5
with md5 "abc" passes verification against (size 5, md5 "abc"). -/
theorem C4_verifier_cases_witness :
    verify_local_file true
      (fun q => if q = ["a.pdf"] then some ⟨5, "abc"⟩ else none)
      ["a.pdf"] (some 5) (some "abc") = (("abc" : String) == "abc") := by
  have h := (C4_verifier_cases true
      (fun q => if q = ["a.pdf"] then some ⟨5, "abc"⟩ else none)
      ["a.pdf"] (some 5) (some "abc")).2.2.1 ⟨5, "abc"⟩ "abc"
  exact h (by decide) (fun s hs => by cases hs; rfl) rfl rfl (by decide)

/-- The pages produced by `chunkAux` always concatenate back to the input. -/
theorem chunkAux_flatten {α : Type} (n : Nat) (fuel : Nat) (l : List α) :
    (chunkAux n fuel l).flatten = l := by
  induction fuel generalizing l with
  | zero => cases l <;> simp [chunkAux]
  | succ fuel ih =>
    cases l with
    | nil => simp [chunkAux]
    | cons x xs =>
      simp only [chunkAux, List.flatten_cons]
      rw [ih]
      exact List.take_append_drop n (x :: xs)

/-- Concatenating the pages restores the listing: pagination does not change
what is processed or its order. -/
theorem chunkPages_flatten {α : Type} (n : Nat) (l : List α) :
    (chunkPages n l).flatten = l := by
  cases n with
  | zero => cases l <;> simp [chunkPages]
  | succ m => exact chunkAux_flatten (m + 1) l.length l

/-- Splitting the processed child list splits the resulting stack/yields. -/
theorem processChildren_append (recursive : Bool) (curLocal : FsPath)
    (a b : List DriveChild) (stack : List (String × FsPath)) :
    processChildren recursive curLocal (a ++ b) stack =
      ((processChildren recursive curLocal b
          (processChildren recursive curLocal a stack).fst).fst,
       (processChildren recursive curLocal a stack).snd ++
         (processChildren recursive curLocal b
           (processChildren recursive curLocal a stack).fst).snd) := by
  induction a generalizing stack with
  | nil => simp [processChildren]
  | cons c cs ih =>
    simp only [List.cons_append, processChildren, List.append_eq]
    rw [ih]
    simp [List.append_assoc]

/-- The pagination loop processes exactly the concatenation of its pages. -/
theorem processPages_eq_processChildren (recursive : Bool) (curLocal : FsPath)
    (pages : List (List DriveChild)) (stack : List (String × FsPath)) :
    processPages recursive curLocal pages stack =
      processChildren recursive curLocal pages.flatten stack := by
  induction pages generalizing stack with
  | nil => simp [processPages, processChildren]
  | cons page rest ih =>
    simp only [processPages, List.flatten_cons]
    rw [ih, processChildren_append]

/-- The stack after processing a folder's children: one frame
`(child.id, current_local / child.name)` per folder child (in reverse order of
appearance, since later pushes sit on top), provided `recursive`; the rest of
the stack is untouched. -/
theorem processChildren_fst (recursive : Bool) (curLocal : FsPath)
    (children : List DriveChild) (stack : List (String × FsPath)) :
    (processChildren recursive curLocal children stack).fst =
      ((children.filter
          (fun c => (c.mimeType == some folderMime) && recursive)).map
        (fun c => (c.id, curLocal ++ [childName c]))).reverse ++ stack := by
  induction children generalizing stack with
  | nil => simp [processChildren]
  | cons c cs ih =>
    simp only [processChildren, List.filter_cons]
    by_cases h : c.mimeType = some folderMime
    · cases recursive with
      | true => simp [childStep, h, ih]
      | false => simp [childStep, h, ih]
    · have hbeq : (c.mimeType == some folderMime) = false := by
        simp [beq_eq_false_iff_ne, h]
      simp [childStep, h, hbeq, ih]

/-- The yields of processing a folder's children: exactly the non-folder
children, in listing order, with destination `current_local / child.name`;
folder children are never yielded. -/
theorem processChildren_snd (recursive : Bool) (curLocal : FsPath)
    (children : List DriveChild) (stack : List (String × FsPath)) :
    (processChildren recursive curLocal children stack).snd =
      (children.filter (fun c => !(c.mimeType == some folderMime))).map
        (fun c => (metaOf c, curLocal ++ [childName c])) := by
  induction children generalizing stack with
  | nil => simp [processChildren]
  | cons c cs ih =>
    simp only [processChildren, List.filter_cons]
    by_cases h : c.mimeType = some folderMime
    · cases recursive with
      | true => simp [childStep, h, ih]
      | false => simp [childStep, h, ih]
    · have hbeq : (c.mimeType == some folderMime) = false := by
        simp [beq_eq_false_iff_ne, h]
      simp [childStep, h, hbeq, ih]

/-- C6: `_walk_folder` is the stack-driven depth-first traversal described by
the spec: popping a frame `(folder_id, local_root)` processes the pages of the
query restricted to non-trashed children of that folder, yielding its
non-folder children in order before descending into the pushed frames; a
folder child is pushed (and not yielded) exactly when `recursive`, ignored
otherwise; every non-folder child is yielded as
`(metadata, local_root / name)`. -/
theorem C6_walk_folder_characterization :
    ∀ (drive : DriveServer) (pageSize : Nat) (recursive : Bool) (fid : String)
      (curLocal : FsPath) (stack : List (String × FsPath)) (fuel : Nat),
    (walkFolderAux drive pageSize recursive (fuel + 1) ((fid, curLocal) :: stack) =
       (walkFolderAux drive pageSize recursive fuel
           (processChildren recursive curLocal (queryChildren drive fid) stack).fst).map
         (fun rest =>
           (processChildren recursive curLocal (queryChildren drive fid) stack).snd ++ rest))
    ∧ queryChildren drive fid = (drive fid).filter (fun c => !c.trashed)
    ∧ (∀ children stack2,
        (processChildren recursive curLocal children stack2).fst =
          ((children.filter
              (fun c => (c.mimeType == some folderMime) && recursive)).map
            (fun c => (c.id, curLocal ++ [childName c]))).reverse ++ stack2)
    ∧ (∀ children,
        (processChildren recursive curLocal children stack).snd =
          (children.filter (fun c => !(c.mimeType == some folderMime))).map
            (fun c => (metaOf c, curLocal ++ [childName c]))) := by
  intro drive pageSize recursive fid curLocal stack fuel
  refine ⟨?_, rfl, ?_, ?_⟩
  · simp only [walkFolderAux]
    rw [processPages_eq_processChildren, chunkPages_flatten]
  · intro children stack2
    exact processChildren_fst recursive curLocal children stack2
  · intro children
    exact processChildren_snd recursive curLocal children stack

/-! ## Structural lemmas about the listing loop -/

/-- The dedupe step never touches the manifest list. -/
theorem dedupeStep_manifest (st : FolderState) (r : String) (m : Option String) :
    (dedupeStep st r m).fst.manifest = st.manifest := by
  cases m with
  | none => rfl
  | some s =>
    simp only [dedupeStep]
    split
    · rfl
    · split
      · rfl
      · split
        · rfl
        · rfl

/-- The dedupe step never touches the futures list. -/
theorem dedupeStep_futures (st : FolderState) (r : String) (m : Option String) :
    (dedupeStep st r m).fst.futures = st.futures := by
  cases m with
  | none => rfl
  | some s =>
    simp only [dedupeStep]
    split
    · rfl
    · split
      · rfl
      · split
        · rfl
        · rfl

/-- Every yielded entry appends exactly its manifest entry, in every mode
(download.py:565-572: the append precedes all skip paths). -/
theorem processEntry_manifest (cfg : OrchCfg) (fs : FS) (root : FsPath)
    (st : FolderState) (e : FileMeta × FsPath) :
    (processEntry cfg fs root st e).fst.manifest
      = st.manifest ++ [mkManifestEntry root e.fst e.snd] := by
  have hd := dedupeStep_manifest
    { st with manifest := st.manifest ++ [mkManifestEntry root e.fst e.snd] }
    (relPathStr root e.snd) e.fst.md5Checksum
  simp only [processEntry]
  split
  · rfl
  · split
    · split
      · exact hd
      · simpa using hd
    · exact hd

/-- The in-memory manifest after the listing loop is the enumeration mapped
through `mkManifestEntry`, appended to whatever was there before. -/
theorem processEntriesFrom_manifest (cfg : OrchCfg) (fs : FS) (root : FsPath)
    (st : FolderState) (es : List (FileMeta × FsPath)) :
    (processEntriesFrom cfg fs root st es).fst.manifest
      = st.manifest ++ es.map (fun e => mkManifestEntry root e.fst e.snd) := by
  induction es generalizing st with
  | nil => simp [processEntriesFrom]
  | cons e rest ih =>
    simp only [processEntriesFrom, List.map_cons]
    rw [ih, processEntry_manifest]
    simp [List.append_assoc]

/-- The listing loop emits only `scheduled` events. -/
theorem processEntry_snd_scheduled (cfg : OrchCfg) (fs : FS) (root : FsPath)
    (st : FolderState) (e : FileMeta × FsPath) (ev : FolderEvent)
    (h : ev ∈ (processEntry cfg fs root st e).snd) :
    ∃ d, ev = FolderEvent.scheduled d := by
  simp only [processEntry] at h
  split at h
  · simp at h
  · split at h
    · split at h
      · simp at h
      · rw [List.mem_singleton] at h
        exact ⟨_, h⟩
    · simp at h

/-- The listing loop, folded over the whole enumeration, emits only
`scheduled` events. -/
theorem processEntriesFrom_snd_scheduled (cfg : OrchCfg) (fs : FS)
    (root : FsPath) (st : FolderState) (es : List (FileMeta × FsPath))
    (ev : FolderEvent)
    (h : ev ∈ (processEntriesFrom cfg fs root st es).snd) :
    ∃ d, ev = FolderEvent.scheduled d := by
  induction es generalizing st with
  | nil => simp [processEntriesFrom] at h
  | cons e rest ih =>
    simp only [processEntriesFrom, List.mem_append] at h
    rcases h with h | h
    · exact processEntry_snd_scheduled cfg fs root st e ev h
    · exact ih _ h

/-- In a trace shaped `scheduled* ++ persist* ++ tail` where the tail holds no
persist event, every persist index precedes every drain index. -/
theorem persist_lt_drain_of_segments (A B C : List FolderEvent)
    (hA : ∀ e, e ∈ A → isScheduledEvent e = true)
    (hB : ∀ e, e ∈ B → isPersistEvent e = true)
    (hC : ∀ e, e ∈ C → isPersistEvent e = false)
    (i j : Nat) (m : List ManifestEntry) (d : ScheduledDownload)
    (hi : (A ++ B ++ C).get? i = some (FolderEvent.persistManifest m))
    (hj : (A ++ B ++ C).get? j = some (FolderEvent.drain d)) :
    i < j := by
  have hiAB : i < (A ++ B).length := by
    by_contra hcon
    push_neg at hcon
    rw [List.get?_append_right hcon] at hi
    have hmem := List.get?_mem hi
    have := hC _ hmem
    simp [isPersistEvent] at this
  have hjAB : (A ++ B).length ≤ j := by
    by_contra hcon
    push_neg at hcon
    rw [List.get?_append hcon] at hj
    by_cases hja : j < A.length
    · rw [List.get?_append hja] at hj
      have hmem := List.get?_mem hj
      have := hA _ hmem
      simp [isScheduledEvent] at this
    · push_neg at hja
      rw [List.get?_append_right hja] at hj
      have hmem := List.get?_mem hj
      have := hB _ hmem
      simp [isPersistEvent] at this
  omega

/-- C5: in every `_download_gdrive_folder` run over a completed enumeration,
the manifest write happens strictly before any download future is drained;
the persisted manifest is exactly the enumeration, in enumeration order, and
it is written whenever the enumeration is non-empty. -/
theorem C5_manifest_before_drain :
    ∀ (cfg : OrchCfg) (fs : FS) (root : FsPath)
      (entries : List (FileMeta × FsPath)),
    (∀ i j m d,
        (runFolderEvents cfg fs root entries).get? i
            = some (FolderEvent.persistManifest m) →
        (runFolderEvents cfg fs root entries).get? j
            = some (FolderEvent.drain d) →
        i < j)
    ∧ (∀ m,
        FolderEvent.persistManifest m ∈ runFolderEvents cfg fs root entries →
        m = entries.map (fun e => mkManifestEntry root e.fst e.snd))
    ∧ (entries ≠ [] →
        FolderEvent.persistManifest
            (entries.map (fun e => mkManifestEntry root e.fst e.snd))
          ∈ runFolderEvents cfg fs root entries) := by
  intro cfg fs root entries
  set r := processEntriesFrom cfg fs root initFolderState entries with hr
  have hman : r.fst.manifest = entries.map (fun e => mkManifestEntry root e.fst e.snd) := by
    rw [hr, processEntriesFrom_manifest]
    simp [initFolderState]
  have hA : ∀ e, e ∈ r.snd → isScheduledEvent e = true := by
    intro e he
    obtain ⟨d, rfl⟩ := processEntriesFrom_snd_scheduled cfg fs root _ _ _ he
    rfl
  set P := (if r.fst.manifest.isEmpty then []
    else [FolderEvent.persistManifest r.fst.manifest]) with hP
  have hB : ∀ e, e ∈ P → isPersistEvent e = true := by
    intro e he
    rw [hP] at he
    split at he
    · simp at he
    · rw [List.mem_singleton] at he
      subst he
      rfl
  have hevs : runFolderEvents cfg fs root entries =
      if cfg.manifest_only then r.snd ++ P
      else if cfg.verify_only then
        r.snd ++ P ++ [FolderEvent.verifyAgainstManifest r.fst.manifest]
      else r.snd ++ P ++ r.fst.futures.map FolderEvent.drain := by
    simp only [runFolderEvents]
  refine ⟨?_, ?_, ?_⟩
  · intro i j m d hi hj
    rw [hevs] at hi hj
    by_cases h1 : cfg.manifest_only
    · rw [if_pos h1] at hi hj
      rw [show r.snd ++ P = r.snd ++ P ++ [] by simp] at hi hj
      exact persist_lt_drain_of_segments r.snd P [] hA hB (by intro e he; simp at he)
        i j m d hi hj
    · rw [if_neg h1] at hi hj
      by_cases h2 : cfg.verify_only
      · rw [if_pos h2] at hi hj
        refine persist_lt_drain_of_segments r.snd P _ hA hB ?_ i j m d hi hj
        intro e he
        rw [List.mem_singleton] at he
        subst he
        rfl
      · rw [if_neg h2] at hi hj
        refine persist_lt_drain_of_segments r.snd P _ hA hB ?_ i j m d hi hj
        intro e he
        rw [List.mem_map] at he
        obtain ⟨x, _, rfl⟩ := he
        rfl
  · intro m hm
    rw [hevs] at hm
    have hnotA : FolderEvent.persistManifest m ∉ r.snd := by
      intro hc
      have := hA _ hc
      simp [isScheduledEvent] at this
    have hinP : FolderEvent.persistManifest m ∈ P → m = entries.map (fun e => mkManifestEntry root e.fst e.snd) := by
      intro hp
      rw [hP] at hp
      split at hp
      · simp at hp
      · rw [List.mem_singleton] at hp
        injection hp with h
        rw [h, hman]
    by_cases h1 : cfg.manifest_only
    · rw [if_pos h1, List.mem_append] at hm
      rcases hm with hm | hm
      · exact absurd hm hnotA
      · exact hinP hm
    · rw [if_neg h1] at hm
      by_cases h2 : cfg.verify_only
      · rw [if_pos h2, List.append_assoc, List.mem_append] at hm
        rcases hm with hm | hm
        · exact absurd hm hnotA
        · rw [List.mem_append] at hm
          rcases hm with hm | hm
          · exact hinP hm
          · rw [List.mem_singleton] at hm
            cases hm
      · rw [if_neg h2, List.append_assoc, List.mem_append] at hm
        rcases hm with hm | hm
        · exact absurd hm hnotA
        · rw [List.mem_append] at hm
          rcases hm with hm | hm
          · exact hinP hm
          · rw [List.mem_map] at hm
            obtain ⟨x, _, hx⟩ := hm
            cases hx
  · intro hne
    have hmapne : entries.map (fun e => mkManifestEntry root e.fst e.snd) ≠ [] := by
      simp [List.map_eq_nil]
      exact hne
    have hPP : P = [FolderEvent.persistManifest
        (entries.map (fun e => mkManifestEntry root e.fst e.snd))] := by
      rw [hP, hman]
      rw [if_neg (by simp [List.isEmpty_iff]; exact hne)]
    have hmemP : FolderEvent.persistManifest
        (entries.map (fun e => mkManifestEntry root e.fst e.snd)) ∈ P := by
      rw [hPP]
      exact List.mem_singleton.mpr rfl
    rw [hevs]
    by_cases h1 : cfg.manifest_only
    · rw [if_pos h1, List.mem_append]
      exact Or.inr hmemP
    · rw [if_neg h1]
      by_cases h2 : cfg.verify_only
      · rw [if_pos h2, List.append_assoc, List.mem_append]
        exact Or.inr (List.mem_append.mpr (Or.inl hmemP))
      · rw [if_neg h2, List.append_assoc, List.mem_append]
        exact Or.inr (List.mem_append.mpr (Or.inl hmemP))

/-- Witness for `C5_manifest_before_drain` on a one-file enumeration: the
persist event sits at index 1, the drain at index 2, and the persisted
manifest is a member of the trace. -/
theorem C5_manifest_before_drain_witness :
    (1 : Nat) < 2 ∧
    FolderEvent.persistManifest
        [mkManifestEntry []
          ⟨"idW", "w.pdf", some "application/pdf", some "mw", some 3⟩ ["w.pdf"]]
      ∈ runFolderEvents ⟨false, false, true, false⟩ (fun _ => none) []
          [(⟨"idW", "w.pdf", some "application/pdf", some "mw", some 3⟩, ["w.pdf"])] := by
  constructor
  · exact (C5_manifest_before_drain ⟨false, false, true, false⟩ (fun _ => none) []
        [(⟨"idW", "w.pdf", some "application/pdf", some "mw", some 3⟩, ["w.pdf"])]).1
      1 2
      [mkManifestEntry []
        ⟨"idW", "w.pdf", some "application/pdf", some "mw", some 3⟩ ["w.pdf"]]
      (mkDownload ⟨"idW", "w.pdf", some "application/pdf", some "mw", some 3⟩ ["w.pdf"])
      (by decide) (by decide)
  · have h := (C5_manifest_before_drain ⟨false, false, true, false⟩ (fun _ => none) []
        [(⟨"idW", "w.pdf", some "application/pdf", some "mw", some 3⟩, ["w.pdf"])]).2.2
      (by decide)
    simpa using h

/-! ## The dedupe invariant (claim C1) -/

/-- Looking up the key just set returns the new value. -/
theorem lookupSeen_setSeen_self (s : List (String × List String))
    (k : String) (v : List String) :
    lookupSeen (setSeen s k v) k = some v := by
  induction s with
  | nil => simp [setSeen, lookupSeen]
  | cons kv rest ih =>
    simp only [setSeen]
    by_cases h : kv.fst = k
    · simp [lookupSeen, h]
    · simp [lookupSeen, h, ih]

/-- Setting one key leaves lookups of other keys unchanged. -/
theorem lookupSeen_setSeen_ne (s : List (String × List String))
    (k k' : String) (v : List String) (h : k' ≠ k) :
    lookupSeen (setSeen s k v) k' = lookupSeen s k' := by
  induction s with
  | nil =>
    simp only [setSeen, lookupSeen]
    rw [if_neg (fun hh => h hh.symm)]
  | cons kv rest ih =>
    simp only [setSeen]
    by_cases hk : kv.fst = k
    · have hne : kv.fst ≠ k' := by rw [hk]; exact fun hh => h hh.symm
      simp only [if_pos hk, lookupSeen]
      rw [if_neg (fun hh => h hh.symm), if_neg hne]
    · simp only [if_neg hk, lookupSeen]
      by_cases hk' : kv.fst = k'
      · simp [hk']
      · simp [hk', ih]

/-- Growing (or freshly creating) the set stored at one key preserves every
recorded membership. -/
theorem seenIn_setSeen_mono (s : List (String × List String)) (k : String)
    (v : List String) (p m : String)
    (hsub : ∀ l, lookupSeen s k = some l → l ⊆ v)
    (h : seenIn s p m) : seenIn (setSeen s k v) p m := by
  obtain ⟨l, hl, hm⟩ := h
  by_cases hp : p = k
  · subst hp
    exact ⟨v, lookupSeen_setSeen_self s p v, hsub l hl hm⟩
  · exact ⟨l, by rw [lookupSeen_setSeen_ne s k p v hp]; exact hl, hm⟩

/-- Appending one download changes the per-(path, md5) count by exactly its
own match flag. -/
theorem countPM_append (root : FsPath) (fut : List ScheduledDownload)
    (d : ScheduledDownload) (p m : String) :
    countPM root (fut ++ [d]) p m =
      countPM root fut p m +
        (if (relPathStr root d.dest == p) && (d.md5 == some m) then 1 else 0) := by
  by_cases h : ((relPathStr root d.dest == p) && (d.md5 == some m)) = true
  · simp [countPM, List.filter_append, h]
  · simp [countPM, List.filter_append, h]

/-- The dedupe step preserves every recorded membership. -/
theorem dedupeStep_seen_mono (st : FolderState) (rel : String)
    (mc : Option String) (p m : String)
    (h : seenIn st.seen_md5_by_path p m) :
    seenIn (dedupeStep st rel mc).fst.seen_md5_by_path p m := by
  cases mc with
  | none => exact h
  | some m₀ =>
    simp only [dedupeStep]
    by_cases h0 : m₀ = ""
    · simp only [if_pos h0]
      exact h
    · simp only [if_neg h0]
      cases hl : lookupSeen st.seen_md5_by_path rel with
      | none =>
        exact seenIn_setSeen_mono _ _ _ _ _
          (fun l hlk => by rw [hl] at hlk; cases hlk) h
      | some ex =>
        by_cases hm : m₀ ∈ ex
        · simp only [if_pos hm]
          exact h
        · simp only [if_neg hm]
          refine seenIn_setSeen_mono _ _ _ _ _ ?_ h
          intro l hlk
          rw [hl] at hlk
          injection hlk with hh
          subst hh
          exact List.subset_append_left ex [m₀]

/-- When the dedupe step falls through (returns `true`) for a non-empty md5,
that (path, md5) had not been recorded before. -/
theorem dedupeStep_true_not_seen (st : FolderState) (rel m₀ : String)
    (h0 : m₀ ≠ "") (h : (dedupeStep st rel (some m₀)).snd = true) :
    ¬ seenIn st.seen_md5_by_path rel m₀ := by
  rintro ⟨l, hl, hm⟩
  simp only [dedupeStep, if_neg h0, hl, if_pos hm] at h
  exact Bool.noConfusion h

/-- When the dedupe step falls through for a non-empty md5, the (path, md5)
is recorded afterwards. -/
theorem dedupeStep_seen_after (st : FolderState) (rel m₀ : String)
    (h0 : m₀ ≠ "") (h : (dedupeStep st rel (some m₀)).snd = true) :
    seenIn (dedupeStep st rel (some m₀)).fst.seen_md5_by_path rel m₀ := by
  simp only [dedupeStep, if_neg h0] at h ⊢
  cases hl : lookupSeen st.seen_md5_by_path rel with
  | none =>
    exact ⟨[m₀], lookupSeen_setSeen_self _ _ _, List.mem_singleton.mpr rfl⟩
  | some ex =>
    rw [hl] at h
    simp only [] at h ⊢
    by_cases hm : m₀ ∈ ex
    · rw [if_pos hm] at h
      simp at h
    · rw [if_neg hm]
      exact ⟨ex ++ [m₀], lookupSeen_setSeen_self _ _ _, by simp⟩

/-- The dedupe step preserves the dedupe invariant. -/
theorem dedupeStep_dedupInv (root : FsPath) (st : FolderState) (rel : String)
    (mc : Option String) (hinv : dedupInv root st) :
    dedupInv root (dedupeStep st rel mc).fst := by
  intro p m hm
  rw [dedupeStep_futures st rel mc]
  exact ⟨(hinv p m hm).1,
    fun hc => dedupeStep_seen_mono st rel mc p m ((hinv p m hm).2 hc)⟩

/-- Scheduling a download after the dedupe step fell through preserves the
dedupe invariant: for a non-empty md5 the falling-through guarantees the
(path, md5) was unseen, so its count goes from 0 to 1 and is recorded. -/
theorem scheduleStep_dedupInv (root : FsPath) (st1 : FolderState)
    (meta : FileMeta) (dest : FsPath) (hinv : dedupInv root st1)
    (hdd : (dedupeStep st1 (relPathStr root dest) meta.md5Checksum).snd = true) :
    dedupInv root
      { (dedupeStep st1 (relPathStr root dest) meta.md5Checksum).fst with
        futures :=
          (dedupeStep st1 (relPathStr root dest) meta.md5Checksum).fst.futures
            ++ [mkDownload meta dest] } := by
  intro p m hm
  show countPM root
      ((dedupeStep st1 (relPathStr root dest) meta.md5Checksum).fst.futures
        ++ [mkDownload meta dest]) p m ≤ 1 ∧
    (1 ≤ countPM root
        ((dedupeStep st1 (relPathStr root dest) meta.md5Checksum).fst.futures
          ++ [mkDownload meta dest]) p m →
      seenIn (dedupeStep st1 (relPathStr root dest)
          meta.md5Checksum).fst.seen_md5_by_path p m)
  rw [dedupeStep_futures, countPM_append]
  by_cases hcond : ((relPathStr root (mkDownload meta dest).dest == p) &&
      ((mkDownload meta dest).md5 == some m)) = true
  · have hcond' := hcond
    rw [Bool.and_eq_true, beq_iff_eq, beq_iff_eq] at hcond'
    obtain ⟨hrel, hmd5⟩ := hcond'
    have hrel2 : relPathStr root dest = p := hrel
    have hmd52 : meta.md5Checksum = some m := hmd5
    have hddm : (dedupeStep st1 (relPathStr root dest) (some m)).snd = true := by
      rw [← hmd52]
      exact hdd
    have hnot : ¬ seenIn st1.seen_md5_by_path (relPathStr root dest) m :=
      dedupeStep_true_not_seen st1 (relPathStr root dest) m hm hddm
    have hc0 : countPM root st1.futures p m = 0 := by
      by_contra hc
      have hge : 1 ≤ countPM root st1.futures p m := Nat.pos_of_ne_zero hc
      have hseen := (hinv p m hm).2 hge
      rw [← hrel2] at hseen
      exact hnot hseen
    rw [if_pos hcond, hc0]
    refine ⟨by omega, fun _ => ?_⟩
    have hafter := dedupeStep_seen_after st1 (relPathStr root dest) m hm hddm
    rw [hmd52, ← hrel2]
    exact hafter
  · rw [if_neg hcond, Nat.add_zero]
    exact ⟨(hinv p m hm).1,
      fun hc => dedupeStep_seen_mono st1 _ _ p m ((hinv p m hm).2 hc)⟩

/-- One listing-loop step preserves the dedupe invariant. -/
theorem processEntry_dedupInv (cfg : OrchCfg) (fs : FS) (root : FsPath)
    (st : FolderState) (e : FileMeta × FsPath) (hinv : dedupInv root st) :
    dedupInv root (processEntry cfg fs root st e).fst := by
  have hinv1 : dedupInv root
      { st with manifest := st.manifest ++ [mkManifestEntry root e.fst e.snd] } :=
    hinv
  simp only [processEntry]
  split
  · exact hinv1
  · split
    · next hdd =>
      split
      · exact dedupeStep_dedupInv root _ _ _ hinv1
      · exact scheduleStep_dedupInv root _ e.fst e.snd hinv1 hdd
    · exact dedupeStep_dedupInv root _ _ _ hinv1

/-- The whole listing loop preserves the dedupe invariant. -/
theorem processEntriesFrom_dedupInv (cfg : OrchCfg) (fs : FS) (root : FsPath)
    (st : FolderState) (es : List (FileMeta × FsPath))
    (hinv : dedupInv root st) :
    dedupInv root (processEntriesFrom cfg fs root st es).fst := by
  induction es generalizing st with
  | nil => exact hinv
  | cons e rest ih =>
    exact ih _ (processEntry_dedupInv cfg fs root st e hinv)

/-- The initial folder state satisfies the dedupe invariant. -/
theorem dedupInv_init (root : FsPath) : dedupInv root initFolderState := by
  intro p m _
  constructor
  · simp [countPM, initFolderState]
  · intro hc
    simp [countPM, initFolderState] at hc

/-- C1 (amended): in normal download mode, a yielded entry repeating a
previously seen (path, md5) with non-empty md5 increments the
skipped-duplicate counter, schedules nothing and leaves the futures
untouched — while its manifest entry is still appended; consequently at most
one download is ever scheduled per (path, md5); and the in-memory (hence
persisted) manifest retains every enumerated entry, duplicates included. -/
theorem C1_dedupe_amended :
    ∀ (cfg : OrchCfg) (fs : FS) (root : FsPath),
    cfg.manifest_only = false → cfg.verify_only = false →
    ((∀ (st : FolderState) (meta : FileMeta) (dest : FsPath)
        (m : String) (l : List String),
        meta.md5Checksum = some m → m ≠ "" →
        lookupSeen st.seen_md5_by_path (relPathStr root dest) = some l →
        m ∈ l →
        (processEntry cfg fs root st (meta, dest)).fst.skipped_duplicate_count
            = st.skipped_duplicate_count + 1
        ∧ (processEntry cfg fs root st (meta, dest)).snd = []
        ∧ (processEntry cfg fs root st (meta, dest)).fst.futures = st.futures
        ∧ (processEntry cfg fs root st (meta, dest)).fst.manifest
            = st.manifest ++ [mkManifestEntry root meta dest])
     ∧ (∀ (entries : List (FileMeta × FsPath)) (p m : String), m ≠ "" →
         countPM root
           (processEntriesFrom cfg fs root initFolderState entries).fst.futures
           p m ≤ 1)
     ∧ (∀ entries : List (FileMeta × FsPath),
         (processEntriesFrom cfg fs root initFolderState entries).fst.manifest
           = entries.map (fun e => mkManifestEntry root e.fst e.snd))) := by
  intro cfg fs root h1 h2
  refine ⟨?_, ?_, ?_⟩
  · intro st meta dest m l hmc hm hl hmem
    have hdd : dedupeStep
        { st with manifest := st.manifest ++ [mkManifestEntry root meta dest] }
        (relPathStr root dest) meta.md5Checksum
        = ({ st with
              manifest := st.manifest ++ [mkManifestEntry root meta dest],
              skipped_duplicate_count := st.skipped_duplicate_count + 1 },
           false) := by
      rw [hmc]
      simp only [dedupeStep, if_neg hm]
      have hl1 : lookupSeen
          ({ st with manifest := st.manifest ++ [mkManifestEntry root meta dest] }
            : FolderState).seen_md5_by_path (relPathStr root dest) = some l := hl
      rw [hl1]
      simp only [if_pos hmem]
    refine ⟨?_, ?_, ?_, ?_⟩ <;>
      simp [processEntry, h1, h2, hdd]
  · intro entries p m hm
    exact ((processEntriesFrom_dedupInv cfg fs root initFolderState entries
      (dedupInv_init root)) p m hm).1
  · intro entries
    rw [processEntriesFrom_manifest]
    simp [initFolderState]

/-- Witness for `C1_dedupe_amended`: with ("x.pdf", "m1") already recorded, a
repeated entry bumps the duplicate counter from 0 to 1. -/
theorem C1_dedupe_amended_witness :
    (processEntry ⟨false, false, true, false⟩ (fun _ => none) []
        ⟨[], [], [("x.pdf", ["m1"])], 0, []⟩
        (⟨"id1", "x.pdf", some "application/pdf", some "m1", some 10⟩,
          ["x.pdf"])).fst.skipped_duplicate_count = 0 + 1 := by
  have h := ((C1_dedupe_amended ⟨false, false, true, false⟩ (fun _ => none) []
      rfl rfl).1
    ⟨[], [], [("x.pdf", ["m1"])], 0, []⟩
    ⟨"id1", "x.pdf", some "application/pdf", some "m1", some 10⟩
    ["x.pdf"] "m1" ["m1"] rfl (by decide) (by decide) (by decide)).1
  exact h

/-- C1 (counterexample to the claim as stated): enumerating the same
(path `x.pdf`, md5 `m1`) twice persists a manifest holding TWO entries with
that path and md5 — the claim's "at most one entry" fails on the code, because
the manifest append precedes the dedupe check. -/
theorem C1_counterexample :
    (finalManifestFile (runFolderEvents ⟨false, false, true, false⟩
        (fun _ => none) []
        [(⟨"id1", "x.pdf", some "application/pdf", some "m1", some 10⟩, ["x.pdf"]),
         (⟨"id1", "x.pdf", some "application/pdf", some "m1", some 10⟩, ["x.pdf"])])).map
      (fun man =>
        (man.filter (fun me => (me.path == "x.pdf") && (me.md5 == some "m1"))).length)
      = some 2 := by decide

/-! ## Per-item manifests (claim C2) -/

/-- Persist-event counting distributes over concatenation. -/
theorem countPersist_append (a b : List FolderEvent) :
    countPersist (a ++ b) = countPersist a + countPersist b := by
  simp [countPersist, List.filter_append]

/-- A trace without persist events counts zero. -/
theorem countPersist_of_no_persist (l : List FolderEvent)
    (h : ∀ e, e ∈ l → isPersistEvent e = false) : countPersist l = 0 := by
  induction l with
  | nil => rfl
  | cons ev rest ih =>
    have hev := h ev (List.mem_cons_self ev rest)
    simp only [countPersist, List.filter_cons, hev]
    exact ih (fun e he => h e (List.mem_cons_of_mem _ he))

/-- One folder run writes the manifest exactly once — unless the enumeration
was empty, in which case `_write_manifest` skips the write. -/
theorem countPersist_runFolder (cfg : OrchCfg) (fs : FS) (root : FsPath)
    (entries : List (FileMeta × FsPath)) :
    countPersist (runFolderEvents cfg fs root entries)
      = if entries.isEmpty then 0 else 1 := by
  simp only [runFolderEvents]
  set r := processEntriesFrom cfg fs root initFolderState entries with hrr
  have hA : countPersist r.snd = 0 := countPersist_of_no_persist _ (by
    intro e he
    obtain ⟨d, rfl⟩ := processEntriesFrom_snd_scheduled cfg fs root _ _ _ he
    rfl)
  have hman : r.fst.manifest
      = entries.map (fun e => mkManifestEntry root e.fst e.snd) := by
    rw [hrr, processEntriesFrom_manifest]
    simp [initFolderState]
  have hPempty : r.fst.manifest.isEmpty = entries.isEmpty := by
    rw [hman]
    cases entries <;> simp
  have hP : countPersist
      (if r.fst.manifest.isEmpty then ([] : List FolderEvent)
       else [FolderEvent.persistManifest r.fst.manifest])
      = if entries.isEmpty then 0 else 1 := by
    rw [hPempty]
    cases hh : entries.isEmpty <;> simp [countPersist, isPersistEvent]
  split
  · rw [countPersist_append, hA, hP]
    simp
  · split
    · rw [countPersist_append, countPersist_append, hA, hP]
      simp [countPersist, isPersistEvent]
    · rw [countPersist_append, countPersist_append, hA, hP]
      have hT : countPersist (r.fst.futures.map FolderEvent.drain) = 0 :=
        countPersist_of_no_persist _ (by
          intro e he
          rw [List.mem_map] at he
          obtain ⟨d, _, rfl⟩ := he
          rfl)
      rw [hT]
      simp

/-- The last-persisted-manifest function over concatenation: later writes
win. -/
theorem finalManifestFile_append (a b : List FolderEvent) :
    finalManifestFile (a ++ b) =
      match finalManifestFile b with
      | some m => some m
      | none => finalManifestFile a := by
  induction a with
  | nil =>
    simp only [List.nil_append]
    cases finalManifestFile b <;> rfl
  | cons ev rest ih =>
    simp only [List.cons_append, finalManifestFile, List.append_eq]
    rw [ih]
    cases finalManifestFile b <;> cases finalManifestFile rest <;> rfl

/-- A trace without persist events leaves no manifest file. -/
theorem finalManifestFile_of_no_persist (l : List FolderEvent)
    (h : ∀ e, e ∈ l → isPersistEvent e = false) :
    finalManifestFile l = none := by
  induction l with
  | nil => rfl
  | cons ev rest ih =>
    have hev := h ev (List.mem_cons_self ev rest)
    simp only [finalManifestFile]
    rw [ih (fun e he => h e (List.mem_cons_of_mem _ he))]
    cases ev with
    | persistManifest m => simp [isPersistEvent] at hev
    | scheduled d => rfl
    | verifyAgainstManifest m => rfl
    | drain d => rfl

/-- The manifest file after one folder run: absent for an empty enumeration,
otherwise exactly the enumeration's manifest. -/
theorem finalManifestFile_runFolder (cfg : OrchCfg) (fs : FS) (root : FsPath)
    (entries : List (FileMeta × FsPath)) :
    finalManifestFile (runFolderEvents cfg fs root entries)
      = if entries.isEmpty then none
        else some (entries.map (fun e => mkManifestEntry root e.fst e.snd)) := by
  simp only [runFolderEvents]
  set r := processEntriesFrom cfg fs root initFolderState entries with hrr
  have hA : finalManifestFile r.snd = none := finalManifestFile_of_no_persist _ (by
    intro e he
    obtain ⟨d, rfl⟩ := processEntriesFrom_snd_scheduled cfg fs root _ _ _ he
    rfl)
  have hman : r.fst.manifest
      = entries.map (fun e => mkManifestEntry root e.fst e.snd) := by
    rw [hrr, processEntriesFrom_manifest]
    simp [initFolderState]
  have hPempty : r.fst.manifest.isEmpty = entries.isEmpty := by
    rw [hman]
    cases entries <;> simp
  have hP : finalManifestFile
      (if r.fst.manifest.isEmpty then ([] : List FolderEvent)
       else [FolderEvent.persistManifest r.fst.manifest])
      = if entries.isEmpty then none
        else some (entries.map (fun e => mkManifestEntry root e.fst e.snd)) := by
    rw [hPempty]
    cases hh : entries.isEmpty <;> simp [hh, finalManifestFile, hman]
  split
  · rw [finalManifestFile_append, hP, hA]
    cases hh : entries.isEmpty <;> simp
  · split
    · rw [finalManifestFile_append, finalManifestFile_append, hP, hA]
      cases hh : entries.isEmpty <;> simp [finalManifestFile]
    · have hT : finalManifestFile (r.fst.futures.map FolderEvent.drain) = none :=
        finalManifestFile_of_no_persist _ (by
          intro e he
          rw [List.mem_map] at he
          obtain ⟨d, _, rfl⟩ := he
          rfl)
      rw [finalManifestFile_append, finalManifestFile_append, hT, hP, hA]
      cases hh : entries.isEmpty <;> simp

/-- When every walk completes, the run's events are the concatenation of the
per-item folder runs. -/
theorem runGdriveItems_of_walksOf (cfg : OrchCfg) (fs : FS)
    (drive : DriveServer) (fuel ps : Nat) (root : FsPath)
    (its : List DownloadItem) (enums : List (List (FileMeta × FsPath)))
    (h : walksOf drive fuel ps root its = some enums) :
    runGdriveItems cfg fs drive fuel ps root its
      = some ((enums.map (runFolderEvents cfg fs root)).flatten) := by
  induction its generalizing enums with
  | nil =>
    simp only [walksOf] at h
    injection h with h
    subst h
    rfl
  | cons it rest ih =>
    simp only [walksOf] at h
    cases hw : walkGdriveItem drive fuel ps root it with
    | none =>
      rw [hw] at h
      simp at h
    | some en =>
      rw [hw] at h
      simp only [] at h
      cases hws : walksOf drive fuel ps root rest with
      | none =>
        rw [hws] at h
        simp at h
      | some ens =>
        rw [hws] at h
        simp only [] at h
        injection h with h
        subst h
        have hgi : runGdriveItem cfg fs drive fuel ps root it
            = some (runFolderEvents cfg fs root en) := by
          simp [runGdriveItem, hw]
        simp only [runGdriveItems, hgi]
        rw [ih ens hws]
        simp

/-- C2 (amended): `download_all` builds a separate in-memory manifest per
`gdrive_folder` item and persists each non-empty one at the end of that
item's enumeration, every write overwriting `target_root/.manifest.json`; so
the run performs one manifest write per item with a non-empty enumeration,
and the file finally holds only the entries of the last such item. -/
theorem C2_per_item_manifest :
    ∀ (cfg : OrchCfg) (fs : FS) (drive : DriveServer) (fuel ps : Nat)
      (outdir : FsPath) (subdir : String) (items : List DownloadItem)
      (enums : List (List (FileMeta × FsPath))),
    walksOf drive fuel ps (outdir ++ [subdir]) (gdriveItems items) = some enums →
    download_all_events cfg fs drive fuel ps outdir subdir items
        = some ((enums.map (runFolderEvents cfg fs (outdir ++ [subdir]))).flatten)
    ∧ countPersist
        ((enums.map (runFolderEvents cfg fs (outdir ++ [subdir]))).flatten)
        = (enums.filter (fun en => !en.isEmpty)).length
    ∧ finalManifestFile
        ((enums.map (runFolderEvents cfg fs (outdir ++ [subdir]))).flatten)
        = lastNonEmptyManifest (outdir ++ [subdir]) enums := by
  intro cfg fs drive fuel ps outdir subdir items enums h
  refine ⟨runGdriveItems_of_walksOf cfg fs drive fuel ps _ _ enums h, ?_, ?_⟩
  · clear h
    induction enums with
    | nil => rfl
    | cons en ens ih =>
      simp only [List.map_cons, List.flatten_cons, List.filter_cons]
      rw [countPersist_append, countPersist_runFolder, ih]
      cases hh : en.isEmpty
      · simp [hh]
        omega
      · simp [hh]
  · clear h
    induction enums with
    | nil => rfl
    | cons en ens ih =>
      simp only [List.map_cons, List.flatten_cons]
      rw [finalManifestFile_append, ih, finalManifestFile_runFolder]
      simp only [lastNonEmptyManifest]

/-- Witness for `C2_per_item_manifest` on two one-file folders: two manifest
writes happen, and the surviving `.manifest.json` is that of the second
folder. -/
theorem C2_per_item_manifest_witness :
    download_all_events ⟨false, false, true, false⟩ (fun _ => none)
        (fun fid =>
          if fid = "f1" then
            [⟨"idA", "a.pdf", some "application/pdf", some "ma", some 1, false⟩]
          else if fid = "f2" then
            [⟨"idB", "b.pdf", some "application/pdf", some "mb", some 2, false⟩]
          else [])
        5 1000 [] "s"
        [⟨"gdrive_folder", none, none, some "f1", false⟩,
         ⟨"gdrive_folder", none, none, some "f2", false⟩]
      = some (([[(⟨"idA", "a.pdf", some "application/pdf", some "ma", some 1⟩,
            ["s", "a.pdf"])],
          [(⟨"idB", "b.pdf", some "application/pdf", some "mb", some 2⟩,
            ["s", "b.pdf"])]].map
            (runFolderEvents ⟨false, false, true, false⟩ (fun _ => none) ["s"])).flatten) := by
  exact (C2_per_item_manifest ⟨false, false, true, false⟩ (fun _ => none)
      (fun fid =>
        if fid = "f1" then
          [⟨"idA", "a.pdf", some "application/pdf", some "ma", some 1, false⟩]
        else if fid = "f2" then
          [⟨"idB", "b.pdf", some "application/pdf", some "mb", some 2, false⟩]
        else [])
      5 1000 [] "s"
      [⟨"gdrive_folder", none, none, some "f1", false⟩,
       ⟨"gdrive_folder", none, none, some "f2", false⟩]
      [[(⟨"idA", "a.pdf", some "application/pdf", some "ma", some 1⟩,
          ["s", "a.pdf"])],
       [(⟨"idB", "b.pdf", some "application/pdf", some "mb", some 2⟩,
          ["s", "b.pdf"])]]
      (by decide)).1

/-- C2 (counterexample to the claim as stated): with two `gdrive_folder`
items, the run writes `.manifest.json` twice (not once), and the final file
holds only the second folder's entry — not the entries of all folders. -/
theorem C2_counterexample :
    (download_all_events ⟨false, false, true, false⟩ (fun _ => none)
        (fun fid =>
          if fid = "f1" then
            [⟨"idA", "a.pdf", some "application/pdf", some "ma", some 1, false⟩]
          else if fid = "f2" then
            [⟨"idB", "b.pdf", some "application/pdf", some "mb", some 2, false⟩]
          else [])
        5 1000 [] "s"
        [⟨"gdrive_folder", none, none, some "f1", false⟩,
         ⟨"gdrive_folder", none, none, some "f2", false⟩]).map
      (fun evs => (countPersist evs, finalManifestFile evs))
      = some (2, some [⟨"idB", "b.pdf", some "mb", some 2⟩]) := by decide

/-! ## Drive fetcher cleanup (claim C3) -/

/-- Unlink-if-exists leaves the unlinked path absent. -/
theorem unlinkIfExists_self (g : FS) (p : FsPath) :
    (if (g p).isSome then updateFS g p none else g) p = none := by
  by_cases h : (g p).isSome
  · simp [h, updateFS]
  · rw [if_neg h]
    cases hg : g p with
    | none => rfl
    | some v => rw [hg] at h; simp at h

/-- Unlink-if-exists preserves absence at any path. -/
theorem unlinkIfExists_none (g : FS) (p q : FsPath) (h : g q = none) :
    (if (g p).isSome then updateFS g p none else g) q = none := by
  by_cases hp : (g p).isSome
  · simp only [hp, if_true, updateFS]
    split
    · rfl
    · exact h
  · simp only [hp, if_false]
    exact h

/-- C3: `_download_gdrive_file` cleans up on every failure: after any failing
call no file remains at the temp path; an exception during the download loop
propagates (the call does not return normally) with the temp file removed;
and a post-download verification failure deletes the destination and
propagates. -/
theorem C3_failure_cleanup :
    ∀ (vd : Bool) (fs : FS) (fid : String) (dest : FsPath)
      (emd5 : Option String) (esize : Option Nat) (oc : DownloadOutcome),
    ((download_gdrive_file vd fs fid dest emd5 esize oc).snd = false →
      (download_gdrive_file vd fs fid dest emd5 esize oc).fst
          (tmpPath dest fid) = none)
    ∧ (∀ p, oc = DownloadOutcome.failure p →
        (download_gdrive_file vd fs fid dest emd5 esize oc).snd = false
        ∧ (download_gdrive_file vd fs fid dest emd5 esize oc).fst
            (tmpPath dest fid) = none)
    ∧ (∀ c, oc = DownloadOutcome.success c →
        vd = true →
        verify_local_file vd (afterReplace fs (tmpPath dest fid) dest c)
            dest esize emd5 = false →
        (download_gdrive_file vd fs fid dest emd5 esize oc).snd = false
        ∧ (download_gdrive_file vd fs fid dest emd5 esize oc).fst dest = none) := by
  intro vd fs fid dest emd5 esize oc
  refine ⟨?_, ?_, ?_⟩
  · intro hfail
    cases oc with
    | failure p =>
      simp only [download_gdrive_file]
      apply unlinkIfExists_none
      exact unlinkIfExists_self _ _
    | success c =>
      simp only [download_gdrive_file] at hfail ⊢
      split at hfail
      · next hcond =>
        simp only [hcond, if_true]
        apply unlinkIfExists_none
        apply unlinkIfExists_self
      · simp at hfail
  · rintro p rfl
    constructor
    · rfl
    · simp only [download_gdrive_file]
      apply unlinkIfExists_none
      exact unlinkIfExists_self _ _
  · rintro c rfl hvd hver
    have hcond : (vd && !(verify_local_file vd
        (afterReplace fs (tmpPath dest fid) dest c) dest esize emd5)) = true := by
      rw [hvd] at hver ⊢
      simp [hver]
    constructor
    · simp only [download_gdrive_file, hcond, if_true]
    · simp only [download_gdrive_file, hcond, if_true]
      apply unlinkIfExists_self

/-- Witness for `C3_failure_cleanup`: downloading content whose md5 is
`wrong` against expectation `right` fails verification, propagates, and
removes the destination. -/
theorem C3_failure_cleanup_witness :
    (download_gdrive_file true (fun _ => none) "F" ["d.pdf"] (some "right")
        none (DownloadOutcome.success ⟨5, "wrong"⟩)).snd = false
    ∧ (download_gdrive_file true (fun _ => none) "F" ["d.pdf"] (some "right")
        none (DownloadOutcome.success ⟨5, "wrong"⟩)).fst ["d.pdf"] = none := by
  exact (C3_failure_cleanup true (fun _ => none) "F" ["d.pdf"] (some "right")
      none (DownloadOutcome.success ⟨5, "wrong"⟩)).2.2
    ⟨5, "wrong"⟩ rfl rfl (by decide)

/-! ## The existing-destination skip decision (claim C7) -/

/-- The dedupe step falls through exactly when the entry is not an identical
path+md5 duplicate. -/
theorem dedupeStep_snd_eq (st : FolderState) (relP : String)
    (mc : Option String) :
    (dedupeStep st relP mc).snd = !(isDuplicateEntry st relP mc) := by
  cases mc with
  | none => rfl
  | some m =>
    simp only [dedupeStep, isDuplicateEntry]
    by_cases h0 : m = ""
    · simp [h0]
    · simp only [if_neg h0]
      cases hl : lookupSeen st.seen_md5_by_path relP with
      | none => rfl
      | some ex =>
        by_cases hm : m ∈ ex
        · simp [hm]
        · simp [hm]

/-- C7 (amended): in normal download mode, for an entry that is not skipped
as an identical path+md5 duplicate and whose destination exists with
`overwrite` false: verification disabled skips the download; verification
enabled with a passing local check skips; verification enabled with a failing
local check schedules the download. -/
theorem C7_local_skip_decision :
    ∀ (cfg : OrchCfg) (fs : FS) (root : FsPath) (st : FolderState)
      (meta : FileMeta) (dest : FsPath),
    cfg.manifest_only = false → cfg.verify_only = false →
    cfg.overwrite = false →
    isDuplicateEntry st (relPathStr root dest) meta.md5Checksum = false →
    (fs dest).isSome = true →
    ((cfg.verify_downloads = false →
        (processEntry cfg fs root st (meta, dest)).snd = []
        ∧ (processEntry cfg fs root st (meta, dest)).fst.futures = st.futures)
     ∧ (cfg.verify_downloads = true →
        verify_local_file true fs dest meta.size meta.md5Checksum = true →
        (processEntry cfg fs root st (meta, dest)).snd = []
        ∧ (processEntry cfg fs root st (meta, dest)).fst.futures = st.futures)
     ∧ (cfg.verify_downloads = true →
        verify_local_file true fs dest meta.size meta.md5Checksum = false →
        (processEntry cfg fs root st (meta, dest)).snd
            = [FolderEvent.scheduled (mkDownload meta dest)]
        ∧ (processEntry cfg fs root st (meta, dest)).fst.futures
            = st.futures ++ [mkDownload meta dest])) := by
  intro cfg fs root st meta dest h1 h2 hov hdup hex
  have hdup1 : isDuplicateEntry
      { st with manifest := st.manifest ++ [mkManifestEntry root meta dest] }
      (relPathStr root dest) meta.md5Checksum = false := hdup
  have hdd : (dedupeStep
      { st with manifest := st.manifest ++ [mkManifestEntry root meta dest] }
      (relPathStr root dest) meta.md5Checksum).snd = true := by
    rw [dedupeStep_snd_eq, hdup1]
    rfl
  have hmode : (cfg.manifest_only || cfg.verify_only) = false := by
    rw [h1, h2]
    rfl
  refine ⟨?_, ?_, ?_⟩
  · intro hvd
    have hskip : localSkip cfg fs dest meta.size meta.md5Checksum = true := by
      simp [localSkip, hvd, hov, hex]
    constructor
    · simp [processEntry, hmode, hdd, hskip]
    · simp only [processEntry, hmode, Bool.false_eq_true, if_false, hdd,
        if_true, hskip]
      exact dedupeStep_futures _ _ _
  · intro hvd hver
    have hskip : localSkip cfg fs dest meta.size meta.md5Checksum = true := by
      simp [localSkip, hvd, hov, hex, hver]
    constructor
    · simp [processEntry, hmode, hdd, hskip]
    · simp only [processEntry, hmode, Bool.false_eq_true, if_false, hdd,
        if_true, hskip]
      exact dedupeStep_futures _ _ _
  · intro hvd hver
    have hskip : localSkip cfg fs dest meta.size meta.md5Checksum = false := by
      simp [localSkip, hvd, hov, hex, hver]
    constructor
    · simp [processEntry, hmode, hdd, hskip]
    · simp only [processEntry, hmode, Bool.false_eq_true, if_false, hdd,
        if_true, hskip]
      show (dedupeStep
          { st with manifest := st.manifest ++ [mkManifestEntry root meta dest] }
          (relPathStr root dest) meta.md5Checksum).fst.futures
            ++ [mkDownload meta dest]
          = st.futures ++ [mkDownload meta dest]
      rw [dedupeStep_futures]

/-- Witness for `C7_local_skip_decision`: an existing destination failing the
local check (wrong md5) gets its download scheduled. -/
theorem C7_local_skip_decision_witness :
    (processEntry ⟨false, false, true, false⟩
        (fun q => if q = ["x.pdf"] then some ⟨10, "bad"⟩ else none) []
        initFolderState
        (⟨"id1", "x.pdf", some "application/pdf", some "m1", some 10⟩,
          ["x.pdf"])).snd
      = [FolderEvent.scheduled (mkDownload
          ⟨"id1", "x.pdf", some "application/pdf", some "m1", some 10⟩
          ["x.pdf"])] := by
  exact ((C7_local_skip_decision ⟨false, false, true, false⟩
      (fun q => if q = ["x.pdf"] then some ⟨10, "bad"⟩ else none) []
      initFolderState
      ⟨"id1", "x.pdf", some "application/pdf", some "m1", some 10⟩
      ["x.pdf"] rfl rfl rfl (by decide) (by decide)).2.2 rfl (by decide)).1

/-- C7 (counterexample to the claim as stated): two identical entries whose
destination exists, with overwrite off, verification on, and a failing local
check — the claim demands both be scheduled, but the second is suppressed by
the dedupe check, so only one `scheduled` event occurs. -/
theorem C7_counterexample :
    ((runFolderEvents ⟨false, false, true, false⟩
        (fun q => if q = ["x.pdf"] then some ⟨10, "bad"⟩ else none) []
        [(⟨"id1", "x.pdf", some "application/pdf", some "m1", some 10⟩, ["x.pdf"]),
         (⟨"id1", "x.pdf", some "application/pdf", some "m1", some 10⟩,
           ["x.pdf"])]).filter isScheduledEvent).length = 1
    ∧ verify_local_file true
        (fun q => if q = ["x.pdf"] then some ⟨10, "bad"⟩ else none)
        ["x.pdf"] (some 10) (some "m1") = false
    ∧ ((fun q => if q = ["x.pdf"] then some ⟨10, "bad"⟩ else none : FS)
        ["x.pdf"]).isSome = true := by
  refine ⟨by decide, by decide, by decide⟩

/-! ## Empty folders (claim C8) -/

/-- A folder whose enumeration is empty produces no events at all in
download modes, and only the verify event in verify-only mode. -/
theorem runFolderEvents_nil (cfg : OrchCfg) (fs : FS) (root : FsPath) :
    runFolderEvents cfg fs root [] =
      if cfg.manifest_only then []
      else if cfg.verify_only then [FolderEvent.verifyAgainstManifest []]
      else [] := by
  simp [runFolderEvents, processEntriesFrom, initFolderState]

/-- C8 (amended): a `gdrive_folder` item enumerating zero files completes
successfully, schedules no downloads, and writes no manifest at all (the
empty manifest is skipped by `_write_manifest`). -/
theorem C8_empty_folder :
    ∀ (cfg : OrchCfg) (fs : FS) (drive : DriveServer) (fuel ps : Nat)
      (outdir : FsPath) (subdir : String) (it : DownloadItem) (fid : String),
    it.kind = "gdrive_folder" → it.folder_id = some fid →
    walkFolder drive ps it.recursive fuel fid (outdir ++ [subdir]) = some [] →
    (download_all_events cfg fs drive fuel ps outdir subdir [it]).map
        (fun evs => ((evs.filter isScheduledEvent).length,
          (evs.filter isPersistEvent).length))
      = some (0, 0) := by
  intro cfg fs drive fuel ps outdir subdir it fid hkind hfid hwalk
  have hg : gdriveItems [it] = [it] := by
    simp [gdriveItems, hkind]
  have hgi : runGdriveItem cfg fs drive fuel ps (outdir ++ [subdir]) it
      = some (runFolderEvents cfg fs (outdir ++ [subdir]) []) := by
    simp [runGdriveItem, walkGdriveItem, hfid, hwalk]
  simp only [download_all_events, hg, runGdriveItems, hgi]
  rw [runFolderEvents_nil]
  by_cases hmo : cfg.manifest_only = true
  · simp [hmo]
  · by_cases hvo : cfg.verify_only = true
    · simp [hmo, hvo, isScheduledEvent, isPersistEvent]
    · simp [hmo, hvo]

/-- Witness for `C8_empty_folder` on a concrete empty Drive folder. -/
theorem C8_empty_folder_witness :
    (download_all_events ⟨false, false, true, false⟩ (fun _ => none)
        (fun _ => []) 5 1000 [] "s"
        [⟨"gdrive_folder", none, none, some "f", false⟩]).map
        (fun evs => ((evs.filter isScheduledEvent).length,
          (evs.filter isPersistEvent).length))
      = some (0, 0) := by
  exact C8_empty_folder ⟨false, false, true, false⟩ (fun _ => none)
    (fun _ => []) 5 1000 [] "s"
    ⟨"gdrive_folder", none, none, some "f", false⟩ "f" rfl rfl (by decide)

/-- C8 (counterexample to the claim as stated): on an empty folder the run
succeeds with an empty event trace — in particular no `.manifest.json` write
happens, contradicting "persists an empty manifest". -/
theorem C8_counterexample :
    download_all_events ⟨false, false, true, false⟩ (fun _ => none)
        (fun _ => []) 5 1000 [] "s"
        [⟨"gdrive_folder", none, none, some "f", false⟩]
      = some []
    ∧ finalManifestFile [] = none := by
  refine ⟨by decide, rfl⟩

/-! ## HTTP filename derivation (claim C9) -/

/-- C9 (amended): config validation accepts an `http_file` item with any
truthy url without checking that a filename is derivable; the default
filename — the last path segment of the URL after percent-decoding — is
computed in `_download_http_file`, and a non-derivable name raises there, at
download time. -/
theorem C9_filename_default :
    ∀ (raw : RawItem) (u : String) (item : DownloadItem),
    (raw.kind = "http_file" → raw.url = some u → u ≠ "" →
      parseItem raw = Except.ok
        { kind := "http_file", url := some u, filename := raw.filename })
    ∧ (item.url = some u → u ≠ "" → item.filename = none →
      httpFilename item =
        (if pathName (unquote (urlPath u)) = ""
         then Except.error ("Cannot infer filename from URL: " ++ u)
         else Except.ok (pathName (unquote (urlPath u))))) := by
  intro raw u item
  constructor
  · intro hkind hurl hu
    simp [parseItem, hkind, hurl, hu]
  · intro hurl hu hfn
    simp [httpFilename, hurl, hu, hfn, inferName]

/-- Witness for `C9_filename_default`: the URL `https://host/a%20b.txt` with
no configured filename yields `a b.txt` at download time. -/
theorem C9_filename_default_witness :
    httpFilename ⟨"http_file", some "https://host/a%20b.txt", none, none, false⟩
      = Except.ok "a b.txt" := by
  have h := (C9_filename_default
      ⟨"http_file", some "https://host/a%20b.txt", none, none, false⟩
      "https://host/a%20b.txt"
      ⟨"http_file", some "https://host/a%20b.txt", none, none, false⟩).2
    rfl (by decide) rfl
  rw [h]
  decide

/-- C9 (counterexample to the claim as stated): the config item with url
`https://host/` (no derivable filename) passes `_load_config` validation, and
the "Cannot infer filename" error is raised only by `_download_http_file` at
download time — deriving no name is not a config-validation failure. -/
theorem C9_counterexample :
    parseItem ⟨"http_file", some "https://host/", none, none, false⟩
        = Except.ok ⟨"http_file", some "https://host/", none, none, false⟩
    ∧ httpFilename ⟨"http_file", some "https://host/", none, none, false⟩
        = Except.error "Cannot infer filename from URL: https://host/" := by
  refine ⟨by decide, by decide⟩

/-! ## Manifest write errors (claim C10) -/

/-- C10: `_write_manifest` returns normally on every input — an IO error
during the write is caught (and merely logged), leaving no manifest file; so
a run never fails because of a manifest write error. -/
theorem C10_write_manifest_never_raises :
    ∀ (manifest : List ManifestEntry) (w : WriteOutcome),
    (write_manifest manifest w).returnedNormally = true
    ∧ (write_manifest manifest WriteOutcome.ioError).fileWritten = none := by
  intro manifest w
  constructor
  · unfold write_manifest
    split
    · rfl
    · cases w <;> rfl
  · unfold write_manifest
    split <;> rfl

end Epstractor
